import Mathlib

/-!
# Verification of grep-directory

A shallow embedding of the `grep-directory` command-line substring search
tool (`src/lib.rs`, `src/main.rs`) together with proofs about its
argument parsing, configuration construction, file enumeration, search
and run-orchestration behaviour.

Modelling conventions:
* Rust `String` / `&str` become Lean `String`; byte-level ASCII lowercasing
  is modelled character-wise (identical on material handled by
  `to_ascii_lowercase`).
* `Result<T, Box<dyn Error>>` becomes `Except String T`, the error carrying
  the message text.
* The filesystem is split into its two syscall facets used by the program:
  directory structure (`fs::read_dir` / `Path::is_dir`) is an explicit tree
  `FSNode`, and whole-file reads (`fs::read_to_string`) are an oracle
  `String → Except String String` from paths to contents or an error
  message.  `Path::exists` during configuration validation is a predicate
  `String → Bool`.
* A Rust panic (the `unwrap()` on `fs::read_dir` results) is modelled as
  `Option.none` in the functions that can panic.
* `println!` / `eprintln!` output is collected as lists of lines.
-/

/-- The closed catalog of recognized option spellings (`VALID_OPTIONS` in
`lib.rs`). -/
def VALID_OPTIONS : List String :=
  ["-c", "--case-insensitive",
   "-r", "--recursive",
   "-v", "--verbose",
   "-h", "--help", "help"]

/-- The `Config` struct of `lib.rs`. -/
structure Config where
  query : String
  path : String
  case_sensitive : Bool
  filter : Bool
  filter_for : List String
  recurse : Bool
  verbose : Bool
  help : Bool
deriving Repr, DecidableEq

/-- Rust `str::starts_with` with a string pattern: the pattern is a prefix of
the string (stated over the character lists so that it evaluates by
`decide`). -/
def strStartsWith (s pre : String) : Bool :=
  decide (pre.data <+: s.data)

/-- `Config::parse_arguments`: collect every argument that starts with a dash
as an option token (the program name included), drop the first dash-free
token (intended to be the program name), take the next dash-free token as the
path, and concatenate all remaining dash-free tokens, with no separator, as
the query.  Errors if the path or the query ends up empty. -/
def parse_arguments (args : List String) :
    Except String (List String × String × String) :=
  let options := args.filter (fun s => strStartsWith s "-")
  let positionals := (args.filter (fun s => !strStartsWith s "-")).drop 1
  let path := (positionals.head?).getD ""
  let query := String.join (positionals.drop 1)
  if path.isEmpty then Except.error "No/invalid path given"
  else if query.isEmpty then Except.error "No/invalid query given"
  else Except.ok (options, path, query)

/-- One step of the `for_each` over option tokens in `Config::new` that turns
recognized spellings into configuration toggles. -/
def Config.applyOption (config : Config) (option : String) : Config :=
  match option with
  | "-c" | "--case-insensitive" => { config with case_sensitive := true }
  | "-r" | "--recursive" => { config with recurse := true }
  | "-v" | "--verbose" => { config with verbose := true }
  | "-h" | "--help" => { config with help := true }
  | _ => config

/-- `Config::new`: parse the arguments, reject unknown option tokens, reject a
path that does not exist (`fsExists` models `Path::exists`), then fold the
option tokens over the default configuration.  Note that the default value of
`case_sensitive` in the source is `false` and the `-c` flag sets it to
`true`. -/
def Config.new (fsExists : String → Bool) (args : List String) :
    Except String Config :=
  match parse_arguments args with
  | Except.error err => Except.error err
  | Except.ok (options, path, query) =>
    if options.any (fun o => !VALID_OPTIONS.contains o) then
      Except.error "One or more invalid options."
    else if !fsExists path then
      Except.error "Invalid path."
    else
      Except.ok (options.foldl Config.applyOption
        { query := query, path := path, case_sensitive := false,
          filter := false, filter_for := [], recurse := false,
          verbose := false, help := false })

/-- Rust `char::to_ascii_lowercase`: add 32 to an ASCII uppercase letter,
leave every other character unchanged. -/
def charToAsciiLower (c : Char) : Char :=
  if 'A' ≤ c ∧ c ≤ 'Z' then Char.ofNat (c.toNat + 32) else c

/-- Rust `str::to_ascii_lowercase` on whole strings. -/
def strToAsciiLower (s : String) : String :=
  String.mk (s.data.map charToAsciiLower)

/-- `search`: read the whole file (through the read oracle), then decide
literal substring containment of the query in the raw contents. -/
def search (query : String) (path : String)
    (readFile : String → Except String String) : Except String Bool :=
  match readFile path with
  | Except.ok contents => Except.ok (decide (query.data <:+: contents.data))
  | Except.error e => Except.error e

/-- `search_case_insensitive`: read the whole file, ASCII-lowercase both the
contents and the query, then decide literal substring containment. -/
def search_case_insensitive (query : String) (path : String)
    (readFile : String → Except String String) : Except String Bool :=
  match readFile path with
  | Except.ok contents =>
      Except.ok (decide ((strToAsciiLower query).data <:+:
        (strToAsciiLower contents).data))
  | Except.error e => Except.error e

/-- Directory structure as seen by `Path::is_dir` and `fs::read_dir`: a file
carries its name; a directory carries its name, whether `fs::read_dir`
succeeds on it (`readable`), and its entries.  File contents are read
through the separate read oracle, not through this tree. -/
inductive FSNode where
  | file (name : String)
  | dir (name : String) (readable : Bool) (entries : List FSNode)
deriving Repr

/-- `Path::is_dir`. -/
def FSNode.isDir : FSNode → Bool
  | .file _ => false
  | .dir _ _ _ => true

/-- The path of a directory entry: `DirEntry::path()` joins the parent path
and the entry name. -/
def mkChild (base : String) (name : String) : String :=
  base ++ "/" ++ name

/-- `list_files`: if the path is a directory, push each entry that is not
itself a directory; subdirectories are skipped.  `none` models the panic of
`fs::read_dir(..).unwrap()` on an unreadable directory. -/
def list_files (base : String) (node : FSNode) : Option (List String) :=
  match node with
  | .file _ => some []
  | .dir _ readable entries =>
    if readable then
      some (entries.filterMap (fun e =>
        match e with
        | .file n => some (mkChild base n)
        | .dir _ _ _ => none))
    else none

mutual
/-- The contribution of one directory entry to `_list_files_recurse`: a file
entry is pushed; a directory entry is recursed into (its `read_dir` may
panic, modelled by `none`). -/
def fsEntryFiles (base : String) : FSNode → Option (List String)
  | .file n => some [mkChild base n]
  | .dir n readable entries =>
    if readable then fsEntriesFiles (mkChild base n) entries else none

/-- The loop of `_list_files_recurse` over a directory's entry list, in
order. -/
def fsEntriesFiles (base : String) : List FSNode → Option (List String)
  | [] => some []
  | e :: es =>
    match fsEntryFiles base e, fsEntriesFiles base es with
    | some l₁, some l₂ => some (l₁ ++ l₂)
    | _, _ => none
end

/-- `list_files_recurse` (via `_list_files_recurse`): depth-first traversal
collecting every transitively reachable file; non-directories at the top
level contribute nothing (the source checks `path.is_dir()` first).  `none`
models the `unwrap()` panic on any unreadable directory encountered. -/
def list_files_recurse (base : String) (node : FSNode) : Option (List String) :=
  match node with
  | .file _ => some []
  | .dir _ readable entries =>
    if readable then fsEntriesFiles base entries else none

mutual
/-- Every `fs::read_dir` call reachable from this node succeeds. -/
def nodeReadable : FSNode → Bool
  | .file _ => true
  | .dir _ r entries => r && entriesReadable entries

/-- Every `fs::read_dir` call reachable from these entries succeeds. -/
def entriesReadable : List FSNode → Bool
  | [] => true
  | e :: es => nodeReadable e && entriesReadable es
end

/-- The candidate-path selection at the top of `run`: a non-directory root is
searched as a singleton; a directory root is enumerated flat or recursively
according to `recurse`. -/
def enumerate (recurse : Bool) (rootPath : String) (root : FSNode) :
    Option (List String) :=
  if !root.isDir then some [rootPath]
  else if recurse then list_files_recurse rootPath root
  else list_files rootPath root

/-- The search dispatch inside `run`'s per-file loop. -/
def searchResult (config : Config)
    (readFile : String → Except String String) (path : String) :
    Except String Bool :=
  if config.case_sensitive then search config.query path readFile
  else search_case_insensitive config.query path readFile

/-- One iteration of `run`'s `for_each` over candidate paths: a successful
search appends a tab-indented line to standard output when it matched; a
failed search is swallowed into a non-match, writing one line to standard
error only when `verbose` is set. -/
def runStep (config : Config) (readFile : String → Except String String)
    (acc : List String × List String) (path : String) :
    List String × List String :=
  match searchResult config readFile path with
  | Except.ok b => (acc.1 ++ (if b then ["\t" ++ path] else []), acc.2)
  | Except.error e =>
      (acc.1,
       acc.2 ++ (if config.verbose then
         ["Error searching \"" ++ path ++ "\": " ++ e] else []))

/-- The lines printed by `help()`, one element per `println!`. -/
def helpLines : List String :=
  ["                              grep-directory.exe",
   "                              By Anthony Rubick\n",
   "search through all files in a directory for a given string\n",
   "USAGE:\n\tgrep-directory.exe [OPTIONS]... [PATH] \"[QUERY]\"\n",
   "OPTIONS:",
   "\t-c\t--case-insensitive\t\t\tis query case sensitive (default: yes)",
   "\t-r,\t--recursive\t\t\t\tSearch through subdirectories",
   "\t-v,\t--verbose\t\t\t\tinclude all error messages in output",
   "\t-h,\t-help\t\t\t\t\tPrints help information\n",
   "PATH:\n\tPath to search in, first argument without a \x27-\x27\n",
   "QUERY:\n\tString to search for, all the stuff after the path\n\twrap in \"\x27s if it contains spaces\n"]

/-- The observable outcome of `run`: lines printed to standard output and
standard error, and the returned `Result<(), Box<dyn Error>>`. -/
structure RunOutput where
  stdout : List String
  stderr : List String
  result : Except String Unit
deriving Repr

/-- `run`: on `help`, print the help text and return `Ok(())`; otherwise
enumerate candidate paths from the root (`none` models the enumeration
panic), print the report header, fold the per-file loop, and return
`Ok(())`. -/
def run (readFile : String → Except String String) (root : FSNode)
    (rootPath : String) (config : Config) : Option RunOutput :=
  if config.help then
    some { stdout := helpLines, stderr := [], result := Except.ok () }
  else
    match enumerate config.recurse rootPath root with
    | none => none
    | some paths =>
      let acc := paths.foldl (runStep config readFile) ([], [])
      some { stdout := "Files containing query: " :: acc.1,
             stderr := acc.2, result := Except.ok () }

/-- The standard-output line contributed by one candidate path: a
tab-indented path when its search succeeded with a match, nothing
otherwise. -/
def matchLine (config : Config) (readFile : String → Except String String)
    (path : String) : Option String :=
  match searchResult config readFile path with
  | Except.ok true => some ("\t" ++ path)
  | _ => none

/-- The standard-error line contributed by one candidate path: the error
report when its search failed and `verbose` is set, nothing otherwise. -/
def errReportLine (config : Config) (readFile : String → Except String String)
    (path : String) : Option String :=
  match searchResult config readFile path with
  | Except.error e =>
      if config.verbose then
        some ("Error searching \"" ++ path ++ "\": " ++ e)
      else none
  | _ => none

/-- Modelled from the spec: `p` is the path of a file reachable from the
directory entry `node` (whose parent directory has path `base`), descending
transitively through subdirectories. -/
inductive EntryFileUnder : String → FSNode → String → Prop where
  | file (base n : String) : EntryFileUnder base (FSNode.file n) (mkChild base n)
  | dir (base dn : String) (r : Bool) (entries : List FSNode) (e : FSNode)
      (p : String) : e ∈ entries → EntryFileUnder (mkChild base dn) e p →
      EntryFileUnder base (FSNode.dir dn r entries) p

/-! ## Helper lemmas -/

/-- A successfully parsed argument list yields a non-empty path and a
non-empty query. -/
theorem parse_arguments_ok_nonempty {args : List String}
    {opts : List String} {path query : String}
    (h : parse_arguments args = Except.ok (opts, path, query)) :
    path ≠ "" ∧ query ≠ "" := by
  simp only [parse_arguments] at h
  split at h
  · exact absurd h (by simp)
  · split at h
    · exact absurd h (by simp)
    · rename_i hpath hquery
      simp only [Except.ok.injEq, Prod.mk.injEq] at h
      obtain ⟨-, h2, h3⟩ := h
      subst h2; subst h3
      rw [String.isEmpty_iff] at hpath hquery
      exact ⟨hpath, hquery⟩

/-- Applying one option token never changes the query or the path. -/
theorem applyOption_preserves (c : Config) (o : String) :
    (Config.applyOption c o).query = c.query ∧
    (Config.applyOption c o).path = c.path := by
  unfold Config.applyOption
  split <;> exact ⟨rfl, rfl⟩

/-- Folding option tokens over a configuration never changes the query or
the path. -/
theorem foldl_applyOption_preserves (opts : List String) (c : Config) :
    (opts.foldl Config.applyOption c).query = c.query ∧
    (opts.foldl Config.applyOption c).path = c.path := by
  induction opts generalizing c with
  | nil => exact ⟨rfl, rfl⟩
  | cons o os ih =>
    simp only [List.foldl_cons]
    obtain ⟨hq, hp⟩ := ih (Config.applyOption c o)
    obtain ⟨hq', hp'⟩ := applyOption_preserves c o
    exact ⟨hq.trans hq', hp.trans hp'⟩

/-- A successfully constructed configuration always has a non-empty query
and a non-empty path, regardless of its help field. -/
theorem config_new_ok_nonempty {fsExists : String → Bool}
    {args : List String} {cfg : Config}
    (h : Config.new fsExists args = Except.ok cfg) :
    cfg.query ≠ "" ∧ cfg.path ≠ "" := by
  unfold Config.new at h
  cases hp : parse_arguments args with
  | error e => rw [hp] at h; exact absurd h (by simp)
  | ok t =>
    obtain ⟨opts, path, query⟩ := t
    rw [hp] at h
    simp only [] at h
    split at h
    · exact absurd h (by simp)
    · split at h
      · exact absurd h (by simp)
      · simp only [Except.ok.injEq] at h
        subst h
        obtain ⟨hq, hpth⟩ := foldl_applyOption_preserves opts
          { query := query, path := path, case_sensitive := false,
            filter := false, filter_for := [], recurse := false,
            verbose := false, help := false }
        rw [hq, hpth]
        exact ⟨(parse_arguments_ok_nonempty hp).2,
          (parse_arguments_ok_nonempty hp).1⟩

/-! ## Claim theorems -/

/-- C1: the claim is refuted by the code.  With no `-c` flag the constructed
configuration has `case_sensitive = false` and the run matches query
"hello" against content "HELLO world" (case-insensitively); with the
`-c` (`--case-insensitive`) flag present, `case_sensitive = true` and the same
run performs exact case-sensitive matching and reports nothing.  This is
the exact inversion of the claimed polarity. -/
theorem case_sensitivity_polarity_inverted :
    Config.new (fun _ => true) ["prog", "x.txt", "hello"] =
      Except.ok ⟨"hello", "x.txt", false, false, [], false, false, false⟩ ∧
    run (fun _ => Except.ok "HELLO world") (FSNode.file "x.txt") "x.txt"
        ⟨"hello", "x.txt", false, false, [], false, false, false⟩ =
      some ⟨["Files containing query: ", "\tx.txt"], [], Except.ok ()⟩ ∧
    Config.new (fun _ => true) ["prog", "-c", "x.txt", "hello"] =
      Except.ok ⟨"hello", "x.txt", true, false, [], false, false, false⟩ ∧
    run (fun _ => Except.ok "HELLO world") (FSNode.file "x.txt") "x.txt"
        ⟨"hello", "x.txt", true, false, [], false, false, false⟩ =
      some ⟨["Files containing query: "], [], Except.ok ()⟩ :=
  ⟨rfl, rfl, rfl, rfl⟩

/-- C2 counterexample: with the help flag `-h` present but no path and no
query, configuration construction does not succeed — it fails with the
missing-path error, refuting the claim that a help flag short-circuits an
otherwise-incomplete configuration at construction time. -/
theorem help_flag_does_not_bypass_validation :
    Config.new (fun _ => true) ["prog", "-h"] =
      Except.error "No/invalid path given" := rfl

/-- C2 amended: every successfully constructed configuration — whether or
not its help field is set — has a non-empty query and a non-empty path,
and whenever a configuration with `help = true` reaches `run`, the run
emits the help text and returns `Ok(())` without touching the
filesystem. -/
theorem config_invariant_and_help_short_circuit :
    (∀ (fsExists : String → Bool) (args : List String) (cfg : Config),
       Config.new fsExists args = Except.ok cfg →
       cfg.query ≠ "" ∧ cfg.path ≠ "") ∧
    (∀ (readFile : String → Except String String) (root : FSNode)
       (rootPath : String) (cfg : Config), cfg.help = true →
       run readFile root rootPath cfg =
         some ⟨helpLines, [], Except.ok ()⟩) := by
  constructor
  · intro fsExists args cfg h
    exact config_new_ok_nonempty h
  · intro readFile root rootPath cfg h
    unfold run
    rw [h]
    rfl

/-- C2 witness: the amended theorem applied at a concrete argument list and
at a concrete help configuration. -/
theorem config_invariant_and_help_short_circuit_witness :
    (⟨"q", "/d", false, false, [], false, false, false⟩ : Config).query ≠ "" ∧
    run (fun _ => Except.error "e") (FSNode.file "f") "f"
        ⟨"q", "f", false, false, [], false, false, true⟩ =
      some ⟨helpLines, [], Except.ok ()⟩ :=
  ⟨(config_invariant_and_help_short_circuit.1 (fun _ => true)
      ["prog", "/d", "q"] _ rfl).1,
   config_invariant_and_help_short_circuit.2 (fun _ => Except.error "e")
      (FSNode.file "f") "f" _ rfl⟩

/-- C5: when the root is not a directory, the candidate-path selection in
`run` yields exactly the singleton containing the root path, independent of
the recurse flag. -/
theorem single_file_enumeration (recurse : Bool) (rootPath name : String) :
    enumerate recurse rootPath (FSNode.file name) = some [rootPath] := by
  cases recurse <;> rfl

/-- C9: the bare token `help` is never recognized as a help trigger.  In
`["prog", "/d", "q", "help"]` it is swallowed into the query (which becomes
"qhelp") and the help field stays false; the invocation `["prog", "help"]`
fails with the missing-query error instead of emitting help.  The catalog
`VALID_OPTIONS` lists "help", showing the intent that it be accepted, but
option tokens are collected only when they start with a dash, so the bare
spelling can never reach the option handler. -/
theorem bare_help_token_never_triggers_help :
    Config.new (fun _ => true) ["prog", "/d", "q", "help"] =
      Except.ok ⟨"qhelp", "/d", false, false, [], false, false, false⟩ ∧
    Config.new (fun _ => true) ["prog", "help"] =
      Except.error "No/invalid query given" ∧
    "help" ∈ VALID_OPTIONS :=
  ⟨rfl, rfl, by decide⟩

/-- C10: whenever `run` returns at all (it can instead panic, modelled as
`none`, when enumeration hits an unreadable directory), its returned result
is `Ok(())`; and the panic is reachable, witnessed by an unreadable
directory root with `help = false`. -/
theorem run_never_returns_error :
    (∀ (readFile : String → Except String String) (root : FSNode)
       (rootPath : String) (cfg : Config) (out : RunOutput),
       run readFile root rootPath cfg = some out →
       out.result = Except.ok ()) ∧
    (∃ (readFile : String → Except String String) (root : FSNode)
       (rootPath : String) (cfg : Config), cfg.help = false ∧
       run readFile root rootPath cfg = none) := by
  constructor
  · intro readFile root rootPath cfg out h
    unfold run at h
    split at h
    · simp only [Option.some.injEq] at h
      subst h
      rfl
    · split at h
      · exact absurd h (by simp)
      · simp only [Option.some.injEq] at h
        subst h
        rfl
  · exact ⟨fun _ => Except.error "e", FSNode.dir "d" false [], "d",
      ⟨"q", "d", true, false, [], false, false, false⟩, rfl, rfl⟩

/-- C10 witness: the first conjunct applied at a concrete run. -/
theorem run_never_returns_error_witness :
    (RunOutput.mk ["Files containing query: "] [] (Except.ok ())).result =
      Except.ok () :=
  run_never_returns_error.1 (fun _ => Except.error "e") (FSNode.file "f")
    "f" ⟨"q", "f", true, false, [], false, false, false⟩ _ rfl

/-- C4 counterexample: with the unknown option token `-x` but no path and no
query, configuration construction fails with the missing-path error, not
with the invalid-option error — parsing errors preempt option
validation. -/
theorem invalid_option_preempted_by_missing_path :
    Config.new (fun _ => true) ["prog", "-x"] =
      Except.error "No/invalid path given" ∧
    Config.new (fun _ => true) ["prog", "-x"] ≠
      Except.error "One or more invalid options." := by
  refine ⟨rfl, fun h => ?_⟩
  rw [show Config.new (fun _ => true) ["prog", "-x"] =
      Except.error "No/invalid path given" from rfl] at h
  simp at h

/-- C4 amended: whenever the argument list parses (so a non-empty path and a
non-empty query are present) and some collected option token is outside the
option catalog, configuration construction fails with the invalid-option
error, regardless of whether the path exists on the filesystem. -/
theorem invalid_option_rejected (fsExists : String → Bool)
    (args opts : List String) (path query : String)
    (hp : parse_arguments args = Except.ok (opts, path, query))
    (o : String) (ho : o ∈ opts) (hvalid : o ∉ VALID_OPTIONS) :
    Config.new fsExists args = Except.error "One or more invalid options." := by
  unfold Config.new
  rw [hp]
  simp only []
  rw [if_pos]
  exact List.any_eq_true.mpr ⟨o, ho, by
    simp only [Bool.not_eq_true', ← Bool.not_eq_true]
    intro hc
    exact hvalid (List.mem_of_elem_eq_true hc)⟩

/-- C4 witness: the amended theorem applied to `["prog", "-x", "p", "q"]`
with a filesystem on which no path exists, showing the invalid-option error
fires even for a nonexistent path. -/
theorem invalid_option_rejected_witness :
    Config.new (fun _ => false) ["prog", "-x", "p", "q"] =
      Except.error "One or more invalid options." :=
  invalid_option_rejected (fun _ => false) ["prog", "-x", "p", "q"]
    ["-x"] "p" "q" rfl "-x" (by decide) (by decide)

/-- C7: for an argument list whose program-name token does not start with a
dash, the parser takes the first positional (dash-free) token after the
program name as the root path and concatenates all remaining positional
tokens, with no separator, into the query; it fails with the missing-path
error when no positional token exists and with the missing-query error when
the query is empty after a (non-empty) path is consumed. -/
theorem parser_positional_semantics (prog : String) (rest : List String)
    (hprog : strStartsWith prog "-" = false) :
    (rest.filter (fun s => !strStartsWith s "-") = [] →
       parse_arguments (prog :: rest) =
         Except.error "No/invalid path given") ∧
    (∀ p ps, rest.filter (fun s => !strStartsWith s "-") = p :: ps →
       p ≠ "" → String.join ps = "" →
       parse_arguments (prog :: rest) =
         Except.error "No/invalid query given") ∧
    (∀ p ps, rest.filter (fun s => !strStartsWith s "-") = p :: ps →
       p ≠ "" → String.join ps ≠ "" →
       ∃ opts, parse_arguments (prog :: rest) =
         Except.ok (opts, p, String.join ps)) := by
  have hfilter : (prog :: rest).filter (fun s => !strStartsWith s "-") =
      prog :: rest.filter (fun s => !strStartsWith s "-") := by
    rw [List.filter_cons_of_pos]
    simp [hprog]
  refine ⟨?_, ?_, ?_⟩
  · intro hpos
    simp only [parse_arguments, hfilter, hpos]
    rfl
  · intro p ps hpos hp hq
    simp only [parse_arguments, hfilter, hpos]
    simp only [List.drop_one, List.head?_cons, List.tail_cons, Option.getD_some]
    rw [if_neg (by rw [String.isEmpty_iff]; exact hp)]
    rw [if_pos (by rw [String.isEmpty_iff]; exact hq)]
  · intro p ps hpos hp hq
    refine ⟨(prog :: rest).filter (fun s => strStartsWith s "-"), ?_⟩
    simp only [parse_arguments, hfilter, hpos]
    simp only [List.drop_one, List.head?_cons, List.tail_cons, Option.getD_some]
    rw [if_neg (by rw [String.isEmpty_iff]; exact hp)]
    rw [if_neg (by rw [String.isEmpty_iff]; exact hq)]

/-- C7 witness: the success case of the parser characterization applied to
`["prog", "-r", "path1", "he", "llo"]`: the root path is "path1" and the
query is the separator-free concatenation "hello". -/
theorem parser_positional_semantics_witness :
    ∃ opts, parse_arguments ["prog", "-r", "path1", "he", "llo"] =
      Except.ok (opts, "path1", "hello") :=
  (parser_positional_semantics "prog" ["-r", "path1", "he", "llo"]
      rfl).2.2 "path1" ["he", "llo"] rfl (by decide) (by decide)

/-- C8: in case-insensitive mode, with a readable file, the search reports a
match exactly when the ASCII-lowercased query occurs contiguously anywhere
inside the ASCII-lowercased raw file content (line terminators included,
since the content is one flat character sequence); and the lowercasing maps
only the ASCII uppercase range, leaving every character outside the ASCII
range unchanged. -/
theorem case_insensitive_ascii_substring (query path : String)
    (readFile : String → Except String String) (contents : String)
    (hread : readFile path = Except.ok contents) :
    (search_case_insensitive query path readFile = Except.ok true ↔
      ∃ pre post : List Char,
        contents.data.map charToAsciiLower =
          pre ++ query.data.map charToAsciiLower ++ post) ∧
    (∀ c : Char, 128 ≤ c.toNat → charToAsciiLower c = c) := by
  constructor
  · unfold search_case_insensitive
    rw [hread]
    simp only [Except.ok.injEq, decide_eq_true_eq]
    constructor
    · rintro ⟨pre, post, he⟩
      exact ⟨pre, post, he.symm⟩
    · rintro ⟨pre, post, he⟩
      exact ⟨pre, post, he.symm⟩
  · intro c hc
    unfold charToAsciiLower
    rw [if_neg]
    rintro ⟨-, h2⟩
    have h3 : c.toNat ≤ 90 := h2
    omega

/-- C8 witness: the characterization applied at a concrete file whose
content matches the query "He\nLLo" only after ASCII lowercasing, across an
embedded line terminator. -/
theorem case_insensitive_ascii_substring_witness :
    search_case_insensitive "He\nLLo" "p"
      (fun _ => Except.ok "xxHE\nlloyy") = Except.ok true :=
  (case_insensitive_ascii_substring "He\nLLo" "p"
      (fun _ => Except.ok "xxHE\nlloyy") "xxHE\nlloyy" rfl).1.mpr
    ⟨"xx".data, "yy".data, by decide⟩

/-- A failing read makes the dispatched search fail with the same message,
in either case-sensitivity mode. -/
theorem searchResult_error {cfg : Config}
    {readFile : String → Except String String} {p msg : String}
    (h : readFile p = Except.error msg) :
    searchResult cfg readFile p = Except.error msg := by
  unfold searchResult search search_case_insensitive
  cases cfg.case_sensitive <;> simp [h]

/-- A successful read makes the dispatched search succeed (with some
boolean), in either case-sensitivity mode. -/
theorem searchResult_ok {cfg : Config}
    {readFile : String → Except String String} {p c : String}
    (h : readFile p = Except.ok c) :
    ∃ b, searchResult cfg readFile p = Except.ok b := by
  unfold searchResult search search_case_insensitive
  cases cfg.case_sensitive <;> simp [h]

/-- The per-file loop of `run`, unrolled: standard output collects the match
line of each path in order, standard error collects the error-report line
of each path in order. -/
theorem foldl_runStep_eq (cfg : Config)
    (readFile : String → Except String String) :
    ∀ (paths : List String) (s e : List String),
    paths.foldl (runStep cfg readFile) (s, e) =
      (s ++ paths.filterMap (matchLine cfg readFile),
       e ++ paths.filterMap (errReportLine cfg readFile)) := by
  intro paths
  induction paths with
  | nil => intro s e; simp
  | cons p ps ih =>
    intro s e
    simp only [List.foldl_cons]
    cases hs : searchResult cfg readFile p with
    | ok b =>
      cases b with
      | true =>
        rw [show runStep cfg readFile (s, e) p = (s ++ ["\t" ++ p], e) from by
          simp [runStep, hs]]
        rw [ih]
        simp [matchLine, errReportLine, hs]
      | false =>
        rw [show runStep cfg readFile (s, e) p = (s, e) from by
          simp [runStep, hs]]
        rw [ih]
        simp [matchLine, errReportLine, hs]
    | error err =>
      rw [show runStep cfg readFile (s, e) p =
          (s, e ++ (if cfg.verbose then
            ["Error searching \"" ++ p ++ "\": " ++ err] else [])) from by
        simp [runStep, hs]]
      rw [ih]
      cases hv : cfg.verbose <;> simp [matchLine, errReportLine, hs, hv]

/-- Occurrences of an element that the selector drops can be filtered away
without changing the result of `filterMap`. -/
theorem filterMap_drop_none {α β : Type} [DecidableEq α] (g : α → Option β)
    (a : α) (hg : g a = none) :
    ∀ l : List α, l.filterMap g =
      (l.filter (fun x => decide (x ≠ a))).filterMap g := by
  intro l
  induction l with
  | nil => rfl
  | cons x xs ih =>
    by_cases hx : x = a
    · subst hx
      simp [List.filterMap_cons, List.filter_cons, hg, ih]
    · simp [List.filterMap_cons, List.filter_cons, hx, ih]

/-- If the selector accepts only one element, which occurs exactly once,
`filterMap` yields that single image. -/
theorem filterMap_count_one {α β : Type} [DecidableEq α] (g : α → Option β)
    (a : α) (y : β) (hg : g a = some y) :
    ∀ l : List α, l.count a = 1 → (∀ x ∈ l, x ≠ a → g x = none) →
    l.filterMap g = [y] := by
  intro l
  induction l with
  | nil => intro h; simp at h
  | cons x xs ih =>
    intro hcount hnone
    by_cases hx : x = a
    · subst hx
      have hxs : xs.count x = 0 := by
        simp [List.count_cons] at hcount
        omega
      have hall : ∀ z ∈ xs, g z = none := by
        intro z hz
        by_cases hzx : z = x
        · subst hzx
          exact absurd hz (List.count_eq_zero.mp hxs)
        · exact hnone z (List.mem_cons_of_mem _ hz) hzx
      simp [List.filterMap_cons, hg, List.filterMap_eq_nil_iff.mpr hall]
    · have hcount' : xs.count a = 1 := by
        rw [List.count_cons, beq_eq_false_iff_ne.mpr hx] at hcount
        simpa using hcount
      rw [List.filterMap_cons, hnone x (List.mem_cons_self x xs) hx]
      exact ih hcount' (fun z hz => hnone z (List.mem_cons_of_mem _ hz))

/-- C3: with help off, a successful enumeration, and exactly one candidate
whose read fails, the run still completes with `Ok(())`; its report is the
match report over the remaining candidates (the failing one is swallowed
into a non-match), and the error stream carries exactly one line for the
failing candidate when verbose is set and nothing otherwise. -/
theorem per_file_error_isolation (cfg : Config)
    (readFile : String → Except String String) (root : FSNode)
    (rootPath : String) (paths : List String) (bad msg : String)
    (hhelp : cfg.help = false)
    (henum : enumerate cfg.recurse rootPath root = some paths)
    (hcount : paths.count bad = 1)
    (hbad : readFile bad = Except.error msg)
    (hok : ∀ q ∈ paths, q ≠ bad → ∃ c, readFile q = Except.ok c) :
    run readFile root rootPath cfg =
      some { stdout := "Files containing query: " ::
               (paths.filter (fun p => decide (p ≠ bad))).filterMap
                 (matchLine cfg readFile),
             stderr := if cfg.verbose then
                 ["Error searching \"" ++ bad ++ "\": " ++ msg] else [],
             result := Except.ok () } := by
  have hsbad : searchResult cfg readFile bad = Except.error msg :=
    searchResult_error hbad
  have hmbad : matchLine cfg readFile bad = none := by
    unfold matchLine
    rw [hsbad]
  unfold run
  rw [hhelp, if_neg (by simp), henum]
  simp only [foldl_runStep_eq, List.nil_append, Option.some.injEq,
    RunOutput.mk.injEq, List.cons.injEq, true_and, and_true]
  refine ⟨?_, ?_⟩
  · rw [← filterMap_drop_none (matchLine cfg readFile) bad hmbad]
  · cases hv : cfg.verbose with
    | false =>
      rw [if_neg (by simp)]
      apply List.filterMap_eq_nil_iff.mpr
      intro x hx
      unfold errReportLine
      cases hsr : searchResult cfg readFile x with
      | ok b => rfl
      | error e => rw [hv]; rfl
    | true =>
      rw [if_pos rfl]
      apply filterMap_count_one (errReportLine cfg readFile) bad _ _ paths
        hcount
      · intro x hx hne
        obtain ⟨b, hb⟩ := searchResult_ok (hok x hx hne).choose_spec
        unfold errReportLine
        rw [hb]
      · unfold errReportLine
        rw [hsbad, hv]
        rfl

/-- C3 witness: a two-file directory where reading the first file is denied;
with verbose on, the run reports the match in the second file and exactly
one error line for the first. -/
theorem per_file_error_isolation_witness :
    run (fun p => if p = "/r/b" then Except.ok "q here"
          else Except.error "denied")
      (FSNode.dir "r" true [FSNode.file "a", FSNode.file "b"]) "/r"
      ⟨"q", "/r", true, false, [], false, true, false⟩ =
    some ⟨["Files containing query: ", "\t/r/b"],
      ["Error searching \"/r/a\": denied"], Except.ok ()⟩ := by
  have h := per_file_error_isolation
    ⟨"q", "/r", true, false, [], false, true, false⟩
    (fun p => if p = "/r/b" then Except.ok "q here"
      else Except.error "denied")
    (FSNode.dir "r" true [FSNode.file "a", FSNode.file "b"]) "/r"
    ["/r/a", "/r/b"] "/r/a" "denied" rfl rfl (by decide) rfl
    (by
      intro q hq hne
      simp only [List.mem_cons, List.not_mem_nil, or_false] at hq
      rcases hq with rfl | rfl
      · exact absurd rfl hne
      · exact ⟨"q here", rfl⟩)
  exact h

/-- Unfolding of full readability on a directory node. -/
theorem nodeReadable_dir {dn : String} {r : Bool} {entries : List FSNode}
    (h : nodeReadable (FSNode.dir dn r entries) = true) :
    r = true ∧ ∀ e ∈ entries, nodeReadable e = true := by
  simp only [nodeReadable, Bool.and_eq_true] at h
  refine ⟨h.1, ?_⟩
  have := h.2
  clear h
  induction entries with
  | nil => intro e he; exact absurd he (List.not_mem_nil e)
  | cons x xs ih =>
    simp only [entriesReadable, Bool.and_eq_true] at this
    intro e he
    rcases List.mem_cons.mp he with rfl | he'
    · exact this.1
    · exact ih this.2 e he'

/-- The entry-list loop of the recursive traversal succeeds and yields
exactly the transitively reachable files, assuming a characterization of
each individual entry. -/
theorem fsEntriesFiles_charac_aux (base : String) (es : List FSNode)
    (ih : ∀ e ∈ es, ∀ b, nodeReadable e = true →
      ∃ l, fsEntryFiles b e = some l ∧ ∀ p, (p ∈ l ↔ EntryFileUnder b e p))
    (hr : ∀ e ∈ es, nodeReadable e = true) :
    ∃ l, fsEntriesFiles base es = some l ∧
      ∀ p, (p ∈ l ↔ ∃ e ∈ es, EntryFileUnder base e p) := by
  induction es with
  | nil =>
    refine ⟨[], rfl, fun p => ?_⟩
    simp
  | cons e es ihs =>
    obtain ⟨l₁, h₁, hc₁⟩ := ih e (List.mem_cons_self e es) base
      (hr e (List.mem_cons_self e es))
    obtain ⟨l₂, h₂, hc₂⟩ := ihs
      (fun x hx b hb => ih x (List.mem_cons_of_mem _ hx) b hb)
      (fun x hx => hr x (List.mem_cons_of_mem _ hx))
    refine ⟨l₁ ++ l₂, ?_, fun p => ?_⟩
    · simp only [fsEntriesFiles]
      rw [h₁, h₂]
    · rw [List.mem_append, hc₁ p, hc₂ p]
      constructor
      · rintro (h | ⟨x, hx, hxp⟩)
        · exact ⟨e, List.mem_cons_self e es, h⟩
        · exact ⟨x, List.mem_cons_of_mem _ hx, hxp⟩
      · rintro ⟨x, hx, hxp⟩
        rcases List.mem_cons.mp hx with rfl | hx'
        · exact Or.inl hxp
        · exact Or.inr ⟨x, hx', hxp⟩

/-- Characterization of the recursive traversal on one directory entry: on
a fully readable entry it succeeds and yields exactly the paths of the
transitively reachable files. -/
theorem fsEntryFiles_charac :
    ∀ (node : FSNode) (base : String), nodeReadable node = true →
      ∃ l, fsEntryFiles base node = some l ∧
        ∀ p, (p ∈ l ↔ EntryFileUnder base node p) := by
  have main : ∀ (k : Nat) (node : FSNode), sizeOf node ≤ k →
      ∀ (base : String), nodeReadable node = true →
      ∃ l, fsEntryFiles base node = some l ∧
        ∀ p, (p ∈ l ↔ EntryFileUnder base node p) := by
    intro k
    induction k with
    | zero =>
      intro node hk
      exfalso
      cases node with
      | file n => simp [FSNode.file.sizeOf_spec] at hk
      | dir dn r entries =>
        simp only [FSNode.dir.sizeOf_spec] at hk
        omega
    | succ k ihk =>
      intro node hk base hr
      cases node with
      | file n =>
        refine ⟨[mkChild base n], rfl, fun p => ?_⟩
        constructor
        · intro hp
          rw [List.mem_singleton] at hp
          subst hp
          exact EntryFileUnder.file base n
        · intro hp
          cases hp
          exact List.mem_singleton_self _
      | dir dn r entries =>
        obtain ⟨hrt, hre⟩ := nodeReadable_dir hr
        subst hrt
        have hsz : ∀ e ∈ entries, sizeOf e ≤ k := by
          intro e he
          have h1 := List.sizeOf_lt_of_mem he
          have h2 : sizeOf entries < sizeOf (FSNode.dir dn true entries) := by
            simp only [FSNode.dir.sizeOf_spec]
            omega
          omega
        obtain ⟨l, hl, hc⟩ := fsEntriesFiles_charac_aux (mkChild base dn)
          entries (fun e he b hb => ihk e (hsz e he) b hb) hre
        refine ⟨l, by simpa [fsEntryFiles] using hl, fun p => ?_⟩
        rw [hc p]
        constructor
        · rintro ⟨e, he, hep⟩
          exact EntryFileUnder.dir base dn true entries e p he hep
        · intro h
          cases h with
          | dir _ _ _ _ e p he hep => exact ⟨e, he, hep⟩
  intro node base hr
  exact main (sizeOf node) node (Nat.le_refl _) base hr

/-- C6: for a readable directory root, non-recursive enumeration returns
exactly the direct non-directory children (subdirectories are skipped
entirely, not descended into), while recursive enumeration returns exactly
the paths of all transitively reachable files — the direct files plus every
file under every subdirectory, collected by the depth-first traversal. -/
theorem enumeration_flat_and_recursive (base dn : String)
    (entries : List FSNode)
    (hr : nodeReadable (FSNode.dir dn true entries) = true) :
    (∃ l, list_files base (FSNode.dir dn true entries) = some l ∧
       ∀ p, (p ∈ l ↔ ∃ n, FSNode.file n ∈ entries ∧ p = mkChild base n)) ∧
    (∃ l, list_files_recurse base (FSNode.dir dn true entries) = some l ∧
       ∀ p, (p ∈ l ↔ ∃ e ∈ entries, EntryFileUnder base e p)) := by
  constructor
  · refine ⟨entries.filterMap (fun e => match e with
      | FSNode.file n => some (mkChild base n)
      | FSNode.dir _ _ _ => none), by simp [list_files], fun p => ?_⟩
    rw [List.mem_filterMap]
    constructor
    · rintro ⟨e, he, hep⟩
      cases e with
      | file n =>
        simp only [Option.some.injEq] at hep
        exact ⟨n, he, hep.symm⟩
      | dir a b c => simp at hep
    · rintro ⟨n, hn, rfl⟩
      exact ⟨FSNode.file n, hn, rfl⟩
  · obtain ⟨-, hre⟩ := nodeReadable_dir hr
    obtain ⟨l, hl, hc⟩ := fsEntriesFiles_charac_aux base entries
      (fun e _ b hb => fsEntryFiles_charac e b hb) hre
    exact ⟨l, by simpa [list_files_recurse] using hl, hc⟩

/-- C6 witness: a root with one direct file `a` and a subdirectory `s`
containing `c`: the flat listing contains `/r/a` but not `/r/s/c`; the
recursive listing contains both. -/
theorem enumeration_flat_and_recursive_witness :
    ∃ l₁ l₂,
      list_files "/r" (FSNode.dir "r" true
        [FSNode.file "a", FSNode.dir "s" true [FSNode.file "c"]]) =
          some l₁ ∧
      "/r/a" ∈ l₁ ∧ "/r/s/c" ∉ l₁ ∧
      list_files_recurse "/r" (FSNode.dir "r" true
        [FSNode.file "a", FSNode.dir "s" true [FSNode.file "c"]]) =
          some l₂ ∧
      "/r/a" ∈ l₂ ∧ "/r/s/c" ∈ l₂ := by
  obtain ⟨⟨l₁, hl₁, hc₁⟩, ⟨l₂, hl₂, hc₂⟩⟩ :=
    enumeration_flat_and_recursive "/r" "r"
      [FSNode.file "a", FSNode.dir "s" true [FSNode.file "c"]] rfl
  refine ⟨l₁, l₂, hl₁, ?_, ?_, hl₂, ?_, ?_⟩
  · exact (hc₁ "/r/a").mpr ⟨"a", List.mem_cons_self _ _, rfl⟩
  · intro hmem
    obtain ⟨n, hn, hp⟩ := (hc₁ "/r/s/c").mp hmem
    rcases List.mem_cons.mp hn with heq | hn'
    · cases heq
      exact absurd hp (by decide)
    · rcases List.mem_cons.mp hn' with heq | hn''
      · cases heq
      · exact absurd hn'' (List.not_mem_nil _)
  · exact (hc₂ "/r/a").mpr ⟨FSNode.file "a", List.mem_cons_self _ _,
      EntryFileUnder.file "/r" "a"⟩
  · refine (hc₂ "/r/s/c").mpr ⟨FSNode.dir "s" true [FSNode.file "c"],
      List.mem_cons_of_mem _ (List.mem_cons_self _ _), ?_⟩
    exact EntryFileUnder.dir "/r" "s" true [FSNode.file "c"]
      (FSNode.file "c") "/r/s/c" (List.mem_cons_self _ _)
      (EntryFileUnder.file "/r/s" "c")
